import Mathlib

/-!
Verification of the vault-synchronization core of the owlbear-gm-ia plugin.

The repository contains several generations of `VaultIntegrationService`:

* `src/js/services/VaultIntegrationService.js` (second document in the file):
  the broadcast-based service.  Its `_processVaultConfig` walks only the
  top-level categories, filters pages whose `visible` flag is exactly `false`,
  and resets the cache to `null` when the input lacks a `categories` field.
  Its broadcast listeners and `requestVaultFromGM` implement a single-slot
  pending-request promise with a 5 second timeout.
* `src/unnamed/part_004` and `src/unnamed/part_005`: the room-metadata
  services.  `requestVaultFromGM` reads room metadata first and then fires a
  best-effort broadcast.  The `part_005` `_processVaultConfig` recursively
  walks nested categories, joining ancestor names with the delimiter
  `" > "` (a missing name defaults to `"Uncategorized"`), collects every
  fully-qualified category path, and leaves the cache untouched when the
  input lacks a `categories` field.  It does not consult the `visible` flag.

Both families share the same query operations (`isVaultAvailable`,
`getVaultData`, `getVaultSummary`).  JavaScript truthiness on strings is
modelled by `strOr` / `strOrNull` (the empty string is falsy); an absent or
non-array `pages` / `categories` field is modelled by the empty list, which
the code treats identically.
-/

/-- JavaScript `v || d` for a string-valued field: `none` and `""` are falsy. -/
def strOr (v : Option String) (d : String) : String :=
  match v with
  | none => d
  | some s => if s = "" then d else s

/-- JavaScript `v || null` for a string-valued field. -/
def strOrNull (v : Option String) : Option String :=
  match v with
  | none => none
  | some s => if s = "" then none else some s

/-- A raw page object as found in a peer-supplied vault config. -/
structure RawPage where
  id : Option String := none
  title : Option String := none
  url : Option String := none
  icon : Option String := none
  visible : Option Bool := none
deriving Repr, DecidableEq

/-- A raw category object: a name, a list of pages and nested sub-categories.
An absent or non-array `pages` / `categories` field is modelled by `[]`. -/
inductive RawCategory : Type where
  | mk (name : Option String) (pages : List RawPage) (categories : List RawCategory)

/-- The `name` field of a raw category. -/
def RawCategory.name : RawCategory → Option String
  | .mk n _ _ => n

/-- The `pages` field of a raw category. -/
def RawCategory.pages : RawCategory → List RawPage
  | .mk _ p _ => p

/-- The `categories` field (nested sub-categories) of a raw category. -/
def RawCategory.categories : RawCategory → List RawCategory
  | .mk _ _ c => c

/-- A peer-supplied vault configuration object.  `categories = none` models a
config whose `categories` field is absent or falsy. -/
structure RawConfig where
  categories : Option (List RawCategory) := none

/-- A flattened page entry of a cached vault snapshot. -/
structure FlatPage where
  id : Option String
  title : String
  category : String
  url : Option String
  icon : Option String
deriving Repr, DecidableEq

/-- The flattened page record pushed by the extraction loops:
`id: page.id, title: page.title || 'Untitled', category, url: page.url || null,
icon: page.icon || null`. -/
def mkFlatPage (p : RawPage) (categoryName : String) : FlatPage :=
  { id := p.id
    title := strOr p.title "Untitled"
    category := categoryName
    url := strOrNull p.url
    icon := strOrNull p.icon }

/-- The fully-qualified name of a category under a parent path, from
`part_005`: `parentPath ? parentPath + " > " + (name || 'Uncategorized')
: (name || 'Uncategorized')`. -/
def categoryPathName (parentPath : String) (name : Option String) : String :=
  if parentPath = "" then strOr name "Uncategorized"
  else parentPath ++ " > " ++ strOr name "Uncategorized"

/-- The recursive `extractPages` closure of `part_005`: returns the collected
fully-qualified category paths and the flattened pages, in traversal order.
Every page of every visited category is pushed; the `visible` flag is not
consulted. -/
def extractPages (cats : List RawCategory) (parentPath : String := "") :
    List String × List FlatPage :=
  match cats with
  | [] => ([], [])
  | .mk name pgs subs :: rest =>
    let categoryName := categoryPathName parentPath name
    let subResult := extractPages subs categoryName
    let restResult := extractPages rest parentPath
    (categoryName :: (subResult.1 ++ restResult.1),
      pgs.map (fun p => mkFlatPage p categoryName) ++ subResult.2 ++ restResult.2)

/-- Spec-side count: the total number of pages of a config across all nesting
levels (the `N` of the flattening property). -/
def countPages : List RawCategory → Nat
  | [] => 0
  | .mk _ pgs subs :: rest => pgs.length + countPages subs + countPages rest

/-- Spec-side count: the number of pages, across all nesting levels, whose
visibility flag is explicitly `false`. -/
def countHiddenPages : List RawCategory → Nat
  | [] => 0
  | .mk _ pgs subs :: rest =>
    (pgs.filter (fun p => p.visible == some false)).length +
      countHiddenPages subs + countHiddenPages rest

/-- Spec-side path builder: joins ancestor names with the fixed delimiter,
defaulting each missing name to `"Uncategorized"`. -/
def joinNames : List (Option String) → String
  | [] => ""
  | [n] => strOr n "Uncategorized"
  | n :: m :: rest => strOr n "Uncategorized" ++ " > " ++ joinNames (m :: rest)

/-- Spec-side path builder relative to an enclosing parent path. -/
def pathFrom (parentPath : String) (ns : List (Option String)) : String :=
  if parentPath = "" then joinNames ns
  else parentPath ++ " > " ++ joinNames ns

/-- Spec-side addressing: follows a list of child indices through the nested
categories and returns the ancestor names along the way (the addressed
category included) together with the addressed category. -/
def namesTo : List RawCategory → List Nat → Option (List (Option String) × RawCategory)
  | _, [] => none
  | cats, [i] => cats[i]?.map (fun c => ([c.name], c))
  | cats, i :: j :: rest =>
    cats[i]?.bind (fun c =>
      (namesTo c.categories (j :: rest)).map (fun r => (c.name :: r.1, r.2)))

/-! ### The summary rendering shared by all service generations -/

/-- One step of the `pagesByCategory` grouping loop: append the page to its
category group, creating the group on first occurrence. -/
def addToGroups (groups : List (String × List FlatPage)) (p : FlatPage) :
    List (String × List FlatPage) :=
  if groups.any (fun g => g.1 == p.category) then
    groups.map (fun g => if g.1 == p.category then (g.1, g.2 ++ [p]) else g)
  else groups ++ [(p.category, [p])]

/-- The `pagesByCategory` object of `getVaultSummary`: groups pages by their
category string, keys in first-occurrence order, pages in input order. -/
def pagesByCategory (pages : List FlatPage) : List (String × List FlatPage) :=
  pages.foldl addToGroups []

/-- Property lookup `pagesByCategory[category]` (empty when absent). -/
def lookupGroup (groups : List (String × List FlatPage)) (c : String) :
    List FlatPage :=
  match groups.find? (fun g => g.1 == c) with
  | some g => g.2
  | none => []

/-- Insertion into a sorted list of strings, modelling one step of the
JavaScript `Array.prototype.sort()` on string keys. -/
def insertSorted (s : String) : List String → List String
  | [] => [s]
  | t :: ts => if s ≤ t then s :: t :: ts else t :: insertSorted s ts

/-- `Object.keys(pagesByCategory).sort()`: lexicographic string sort. -/
def sortStrings (l : List String) : List String := l.foldr insertSorted []

/-- One page line of the summary: `- (icon or default) title`. -/
def renderPageLine (p : FlatPage) : String :=
  "- " ++ p.icon.getD "📄" ++ " " ++ p.title ++ "\n"

/-- One category block of the summary. -/
def renderCategoryBlock (groups : List (String × List FlatPage)) (c : String) :
    String :=
  "\n**" ++ c ++ ":**\n" ++ String.join ((lookupGroup groups c).map renderPageLine)

/-- The fixed header of a non-empty summary, including the count line. -/
def summaryHeader (numPages numCategories : Nat) : String :=
  "\n\n## GM Vault Content\n\n" ++
    "The user has a GM Vault with " ++ toString numPages ++
    " pages organized in " ++ toString numCategories ++ " categories.\n\n" ++
    "Available pages:\n"

/-- The fixed footer of a non-empty summary. -/
def summaryFooter : String :=
  "\nNote: The user can reference these pages when asking questions. You can mention them if relevant to the conversation.\n"

/-- The body of `getVaultSummary` past its availability guard. -/
def renderSummary (numCategories : Nat) (pages : List FlatPage) : String :=
  let groups := pagesByCategory pages
  summaryHeader pages.length numCategories ++
    String.join ((sortStrings (groups.map Prod.fst)).map (renderCategoryBlock groups)) ++
    summaryFooter

namespace MetadataSvc

/-! The room-metadata service of `src/unnamed/part_005` (with
`src/unnamed/part_004` sharing `requestVaultFromGM` and the queries). -/

/-- The cached snapshot of the `part_005` service: collected fully-qualified
category paths, flattened pages, and the processing timestamp. -/
structure VaultData where
  categories : List String
  pages : List FlatPage
  lastUpdate : Nat
deriving Repr, DecidableEq

/-- `_processVaultConfig` of `part_005`: rejects a config without a categories
collection by returning with the cache untouched; otherwise replaces the
cache with the freshly extracted snapshot. -/
def processVaultConfig (cache : Option VaultData) (config : Option RawConfig)
    (now : Nat) : Option VaultData :=
  match config with
  | none => cache
  | some cfg =>
    match cfg.categories with
    | none => cache
    | some cats =>
      let result := extractPages cats
      some { categories := result.1, pages := result.2, lastUpdate := now }

/-- `isVaultAvailable`: cache present and flattened page list non-empty. -/
def isVaultAvailable (cache : Option VaultData) : Bool :=
  match cache with
  | none => false
  | some vd => decide (0 < vd.pages.length)

/-- `getVaultData`: returns the cached snapshot or null. -/
def getVaultData (cache : Option VaultData) : Option VaultData :=
  cache

/-- `getVaultSummary`: empty string when unavailable, otherwise the rendered
summary block. -/
def getVaultSummary (cache : Option VaultData) : String :=
  match cache with
  | none => ""
  | some vd =>
    if vd.pages.length = 0 then ""
    else renderSummary vd.categories.length vd.pages

/-- The room metadata mapping restricted to the two keys the service reads:
`com.dmscreen/fullConfig` and `com.dmscreen/pagesConfig` (a falsy value is
modelled by `none`). -/
structure RoomMetadata where
  fullConfig : Option RawConfig := none
  pagesConfig : Option RawConfig := none

/-- Outcome of `OBR.room.getMetadata()`: the call may throw, return a falsy
object, or return a metadata mapping. -/
inductive ReadOutcome where
  | err
  | ok (metadata : Option RoomMetadata)

/-- The mutable fields of the service instance that `requestVaultFromGM`
touches: the OBR handle (present or not) and the cached snapshot. -/
structure ServiceState where
  OBR : Bool
  cachedVaultData : Option VaultData
deriving Repr, DecidableEq

/-- `_loadFromRoomMetadata`: reads room metadata, tries the full-config key
first, then the pages-config key; any failure or absence counts as
"not found" and leaves the cache untouched. -/
def loadFromRoomMetadata (s : ServiceState) (read : ReadOutcome) (now : Nat) :
    ServiceState × Bool :=
  if s.OBR = false then (s, false)
  else
    match read with
    | .err => (s, false)
    | .ok none => (s, false)
    | .ok (some m) =>
      match m.fullConfig with
      | some cfg =>
        ({ s with cachedVaultData := processVaultConfig s.cachedVaultData (some cfg) now }, true)
      | none =>
        match m.pagesConfig with
        | some cfg =>
          ({ s with cachedVaultData := processVaultConfig s.cachedVaultData (some cfg) now }, true)
        | none => (s, false)

/-- `OBR.broadcast.sendMessage`: succeeds or throws. -/
def sendBroadcastMessage (ok : Bool) : Except Unit Unit :=
  if ok then .ok () else .error ()

/-- `requestVaultFromGM` of `part_004` / `part_005`: reads the room metadata
first, then fires a best-effort broadcast whose failure is swallowed by the
surrounding try/catch, and returns whether the metadata read found data. -/
def requestVaultFromGM (s : ServiceState) (read : ReadOutcome)
    (broadcastOk : Bool) (now : Nat) : ServiceState × Bool :=
  if s.OBR = false then (s, false)
  else
    let r := loadFromRoomMetadata s read now
    match sendBroadcastMessage broadcastOk with
    | .ok _ => (r.1, r.2)
    | .error _ => (r.1, r.2)

end MetadataSvc

namespace BroadcastSvc

/-! The broadcast-based service: the second document inside
`src/js/services/VaultIntegrationService.js`. -/

/-- The cached snapshot of the broadcast-based service: the raw top-level
categories, the flattened (visibility-filtered) pages, and a timestamp. -/
structure VaultData where
  categories : List RawCategory
  pages : List FlatPage
  lastUpdate : Nat

/-- `_processVaultConfig` of the broadcast-based service: resets the cache to
null when the config lacks a categories collection; otherwise extracts the
pages of the top-level categories, dropping pages whose `visible` flag is
exactly `false`. -/
def processVaultConfig (cache : Option VaultData) (config : Option RawConfig)
    (now : Nat) : Option VaultData :=
  match config with
  | none => none
  | some cfg =>
    match cfg.categories with
    | none => none
    | some cats =>
      some { categories := cats
             pages := (cats.map (fun c =>
               (c.pages.filter (fun p => p.visible != some false)).map
                 (fun p => mkFlatPage p (strOr c.name "Uncategorized")))).flatten
             lastUpdate := now }

/-- `isVaultAvailable` of the broadcast-based service. -/
def isVaultAvailable (cache : Option VaultData) : Bool :=
  match cache with
  | none => false
  | some vd => decide (0 < vd.pages.length)

/-- `getVaultData` of the broadcast-based service. -/
def getVaultData (cache : Option VaultData) : Option VaultData :=
  cache

/-- `getVaultSummary` of the broadcast-based service. -/
def getVaultSummary (cache : Option VaultData) : String :=
  match cache with
  | none => ""
  | some vd =>
    if vd.pages.length = 0 then ""
    else renderSummary vd.categories.length vd.pages

/-- The instance fields of the broadcast-based service. -/
structure ServiceState where
  OBR : Bool
  cachedVaultData : Option VaultData
  isListening : Bool
  playerId : Option String
  playerName : String
  pendingRequest : Bool

/-- The three public query operations. -/
inductive QueryOp where
  | isVaultAvailableQ
  | getVaultDataQ
  | getVaultSummaryQ

/-- A query result value. -/
inductive QueryResult where
  | boolResult (b : Bool)
  | dataResult (d : Option VaultData)
  | textResult (s : String)

/-- Runs one query operation on the service instance; the method bodies
contain no assignment, so the resulting instance state is returned as the
methods leave it. -/
def runQuery (s : ServiceState) : QueryOp → QueryResult × ServiceState
  | .isVaultAvailableQ => (.boolResult (isVaultAvailable s.cachedVaultData), s)
  | .getVaultDataQ => (.dataResult (getVaultData s.cachedVaultData), s)
  | .getVaultSummaryQ => (.textResult (getVaultSummary s.cachedVaultData), s)

/-- Runs a sequence of query operations, threading the instance state. -/
def runQueries (s : ServiceState) : List QueryOp → List QueryResult × ServiceState
  | [] => ([], s)
  | q :: qs =>
    let r := runQuery s q
    let rest := runQueries r.2 qs
    (r.1 :: rest.1, rest.2)

/-- `!requesterId || requesterId === this._playerId`: a falsy requester id
(absent or empty) passes the guard, otherwise strict equality with the
recorded player id is required. -/
def requesterMatches (playerId : Option String) (requesterId : Option String) :
    Bool :=
  match requesterId with
  | none => true
  | some r => if r = "" then true else decide (some r = playerId)

/-- The component state of one awaited `requestVaultFromGM` round:
the single-slot pending request, whether the 5 second timeout timer is still
armed, how often the awaited promise has been resolved, and the cache. -/
structure WaitState where
  pendingRequest : Bool
  timerActive : Bool
  resolveCount : Nat
  playerId : Option String
  cachedVaultData : Option VaultData

/-- Resolution through the stored pending-request wrapper: clears the timeout,
resolves the promise once and nulls the single slot. -/
def resolveOnce (s : WaitState) : WaitState :=
  { s with pendingRequest := false, timerActive := false
           resolveCount := s.resolveCount + 1 }

/-- The asynchronous events that can reach the component while a caller is
awaiting `requestVaultFromGM`: a reply on either inbound broadcast channel,
or the firing of the bounded-wait timeout. -/
inductive WaitEvent where
  | responseFullVault (config : Option RawConfig) (requesterId : Option String) (now : Nat)
  | visiblePages (config : Option RawConfig) (now : Nat)
  | timeoutFired

/-- One event handler dispatch, translated from `_setupBroadcastListeners`
and the `setTimeout` body of `requestVaultFromGM`. -/
def stepEvent (s : WaitState) : WaitEvent → WaitState
  | .responseFullVault config requesterId now =>
    match config with
    | none => s
    | some cfg =>
      let s1 := { s with cachedVaultData := processVaultConfig s.cachedVaultData (some cfg) now }
      if s1.pendingRequest && requesterMatches s1.playerId requesterId then
        resolveOnce s1
      else s1
  | .visiblePages config now =>
    match config with
    | none => s
    | some cfg =>
      let s1 := { s with cachedVaultData := processVaultConfig s.cachedVaultData (some cfg) now }
      if s1.pendingRequest then resolveOnce s1 else s1
  | .timeoutFired =>
    if s.timerActive then
      { s with pendingRequest := false, timerActive := false
               resolveCount := s.resolveCount + 1 }
    else s

/-- Runs a sequence of asynchronous events against the component. -/
def runEvents (s : WaitState) : List WaitEvent → WaitState
  | [] => s
  | e :: es => runEvents (stepEvent s e) es

/-- The single-resolution invariant of one awaited round: the timeout timer is
armed exactly while the slot is occupied, the promise is unresolved while the
slot is occupied, and it is never resolved twice. -/
def WaitInv (s : WaitState) : Prop :=
  s.timerActive = s.pendingRequest ∧
    (s.pendingRequest = true → s.resolveCount = 0) ∧ s.resolveCount ≤ 1

end BroadcastSvc

namespace Poll

/-! Modelled from the spec: no polling code exists under `src/`; this models
section 4.1 step 4 of the spec (recurring background refresh every 20
seconds, change-detection callback, cancelable, and idempotent start). -/

/-- Modelled from the spec: the fixed polling interval, 20 seconds. -/
def POLL_INTERVAL_MS : Nat := 20000

/-- Modelled from the spec: the polling-related component state — the number
of currently active interval timers, the page count seen by the previous
refresh, and counters for performed refreshes and vault-changed callback
invocations. -/
structure PollComponent where
  activeTimers : Nat
  lastPageCount : Nat
  refreshCount : Nat
  callbackCount : Nat
deriving Repr, DecidableEq

/-- Modelled from the spec: the polling start routine arms the fixed-interval
timer only when none is armed yet, so running it twice must not duplicate
the timer. -/
def startPolling (s : PollComponent) : PollComponent :=
  if s.activeTimers ≠ 0 then s else { s with activeTimers := 1 }

/-- Modelled from the spec: cancels the recurring poll. -/
def stopPolling (s : PollComponent) : PollComponent :=
  { s with activeTimers := 0 }

/-- Modelled from the spec: one firing of the refresh body — re-read the
persistent shared state (yielding `readCount` pages) and invoke the
vault-changed callback exactly when the count differs from the previous
one. -/
def fireRefresh (s : PollComponent) (readCount : Nat) : PollComponent :=
  { s with refreshCount := s.refreshCount + 1
           callbackCount := s.callbackCount + (if readCount ≠ s.lastPageCount then 1 else 0)
           lastPageCount := readCount }

/-- Modelled from the spec: one polling interval elapses; every active timer
fires the refresh body once. -/
def pollTick (s : PollComponent) (readCount : Nat) : PollComponent :=
  (fun t => fireRefresh t readCount)^[s.activeTimers] s

/-- Modelled from the spec: advance virtual time by one interval per listed
shared-state read result. -/
def advanceIntervals (s : PollComponent) (reads : List Nat) : PollComponent :=
  reads.foldl pollTick s

/-- Spec-side count of the callback invocations the refresh sequence should
produce: one per read whose page count differs from its predecessor. -/
def countChanges (prev : Nat) : List Nat → Nat
  | [] => 0
  | r :: rs => (if r ≠ prev then 1 else 0) + countChanges r rs

end Poll

/-! ### Helper lemmas -/

/-- The flattened page list of `extractPages` has exactly one entry per page
of the config, across all nesting levels. -/
theorem extractPages_length (cats : List RawCategory) (pp : String) :
    (extractPages cats pp).2.length = countPages cats := by
  induction cats using countPages.induct generalizing pp with
  | case1 => simp [extractPages, countPages]
  | case2 name pgs subs rest ih1 ih2 =>
    simp [extractPages, countPages, ih1, ih2]
    omega

/-! ### C1 -/

/-- C1 (counterexample): in the broadcast-based service, `_processVaultConfig`
applied to a config lacking a categories collection resets a pre-existing
cached snapshot to absent, so the rejected parse is not a no-op on the
cache. -/
theorem C1_counterexample :
    BroadcastSvc.processVaultConfig
        (some { categories := [], pages := [], lastUpdate := 3 })
        (some { categories := none }) 7 = none ∧
    (none : Option BroadcastSvc.VaultData) ≠
      some { categories := [], pages := [], lastUpdate := 3 } := by
  constructor
  · rfl
  · intro h
    exact Option.noConfusion h

/-- C1 (amended): in the room-metadata services (`part_004`, `part_005`),
`_processVaultConfig` on an input lacking a categories collection is a no-op
on the cache — the prior snapshot, present or absent, is exactly the snapshot
after the call.  (The broadcast-based service instead resets the cache to
absent on such input.) -/
theorem C1_processVaultConfig_reject_noop
    (cache : Option MetadataSvc.VaultData) (now : Nat) :
    MetadataSvc.processVaultConfig cache none now = cache ∧
    MetadataSvc.processVaultConfig cache (some { categories := none }) now = cache := by
  exact ⟨rfl, rfl⟩

/-! ### C2 -/

/-- C2 (counterexample): for a valid config holding exactly one page whose
visibility flag is explicitly `false`, the claim predicts an empty flattened
list, but the `part_005` snapshot contains that page: the nested extraction
never consults the visibility flag. -/
theorem C2_counterexample :
    (MetadataSvc.processVaultConfig none
        (some { categories := some [RawCategory.mk (some "A")
          [{ id := some "h", visible := some false }] []] }) 0).map
      (fun vd => vd.pages.length) = some 1 ∧
    countPages [RawCategory.mk (some "A")
      [{ id := some "h", visible := some false }] []] = 1 ∧
    countHiddenPages [RawCategory.mk (some "A")
      [{ id := some "h", visible := some false }] []] = 1 ∧
    (1 : Nat) ≠ 1 - 1 := by
  refine ⟨?_, by simp [countPages], by simp [countHiddenPages], by decide⟩
  simp [MetadataSvc.processVaultConfig, extractPages, categoryPathName]

/-- C2 (amended): for every valid config with `N` total pages across all
nesting levels, the snapshot produced by the `part_005` parse contains
exactly `N` flattened pages: the visibility flag is not consulted, and every
page — whether its flag is absent, true or explicitly false — appears exactly
once. -/
theorem C2_processVaultConfig_page_count
    (cache : Option MetadataSvc.VaultData) (cats : List RawCategory) (now : Nat) :
    (MetadataSvc.processVaultConfig cache (some { categories := some cats }) now).map
      (fun vd => vd.pages.length) = some (countPages cats) := by
  simp [MetadataSvc.processVaultConfig, extractPages_length]

/-! ### C5 -/

/-- C5: `requestVaultFromGM` of the room-metadata services performs the
persistent-state read and returns exactly its outcome — resulting state and
found-flag equal those of `_loadFromRoomMetadata` — and the result does not
depend on whether the subsequent best-effort broadcast send succeeds or
throws. -/
theorem C5_requestVaultFromGM_broadcast_immaterial
    (s : MetadataSvc.ServiceState) (read : MetadataSvc.ReadOutcome)
    (broadcastOk broadcastOk' : Bool) (now : Nat) :
    MetadataSvc.requestVaultFromGM s read broadcastOk now =
      MetadataSvc.loadFromRoomMetadata s read now ∧
    MetadataSvc.requestVaultFromGM s read broadcastOk now =
      MetadataSvc.requestVaultFromGM s read broadcastOk' now := by
  constructor
  · unfold MetadataSvc.requestVaultFromGM MetadataSvc.sendBroadcastMessage
    by_cases h : s.OBR = false
    · simp [h, MetadataSvc.loadFromRoomMetadata]
    · cases broadcastOk <;> simp [h]
  · unfold MetadataSvc.requestVaultFromGM MetadataSvc.sendBroadcastMessage
    cases broadcastOk <;> cases broadcastOk' <;> simp

/-! ### C7 -/

/-- C7: in both service generations `isVaultAvailable` returns true exactly
when a cached snapshot exists and its flattened page list is non-empty; in
every other state it returns false. -/
theorem C7_isVaultAvailable_iff :
    (∀ cache : Option MetadataSvc.VaultData,
      MetadataSvc.isVaultAvailable cache = true ↔
        ∃ vd, cache = some vd ∧ vd.pages ≠ []) ∧
    (∀ cache : Option BroadcastSvc.VaultData,
      BroadcastSvc.isVaultAvailable cache = true ↔
        ∃ vd, cache = some vd ∧ vd.pages ≠ []) := by
  constructor
  · intro cache
    cases cache with
    | none => simp [MetadataSvc.isVaultAvailable]
    | some vd => simp [MetadataSvc.isVaultAvailable, List.length_pos]
  · intro cache
    cases cache with
    | none => simp [BroadcastSvc.isVaultAvailable]
    | some vd => simp [BroadcastSvc.isVaultAvailable, List.length_pos]

/-! ### C8 -/

/-- C8: in both service generations, whenever the vault is unavailable — no
cached snapshot, or a snapshot with an empty page list — `getVaultSummary`
returns the empty string. -/
theorem C8_getVaultSummary_empty_when_unavailable :
    (∀ cache : Option MetadataSvc.VaultData,
      MetadataSvc.isVaultAvailable cache = false →
      MetadataSvc.getVaultSummary cache = "") ∧
    (∀ cache : Option BroadcastSvc.VaultData,
      BroadcastSvc.isVaultAvailable cache = false →
      BroadcastSvc.getVaultSummary cache = "") := by
  constructor
  · intro cache h
    cases cache with
    | none => rfl
    | some vd =>
      simp [MetadataSvc.isVaultAvailable] at h
      simp [MetadataSvc.getVaultSummary, h]
  · intro cache h
    cases cache with
    | none => rfl
    | some vd =>
      simp [BroadcastSvc.isVaultAvailable] at h
      simp [BroadcastSvc.getVaultSummary, h]

/-- C8 (witness): concrete unavailable states — an absent cache and a cached
snapshot with an empty page list — both yield the empty summary. -/
theorem C8_witness :
    MetadataSvc.isVaultAvailable none = false ∧
    MetadataSvc.isVaultAvailable (some { categories := ["X"], pages := [], lastUpdate := 5 }) = false ∧
    MetadataSvc.getVaultSummary none = "" ∧
    MetadataSvc.getVaultSummary (some { categories := ["X"], pages := [], lastUpdate := 5 }) = "" ∧
    BroadcastSvc.getVaultSummary (some { categories := [], pages := [], lastUpdate := 2 }) = "" :=
  ⟨by decide, by decide,
    C8_getVaultSummary_empty_when_unavailable.1 none (by decide),
    C8_getVaultSummary_empty_when_unavailable.1
      (some { categories := ["X"], pages := [], lastUpdate := 5 }) (by decide),
    C8_getVaultSummary_empty_when_unavailable.2
      (some { categories := [], pages := [], lastUpdate := 2 }) (by decide)⟩

/-! ### C10 -/

/-- Each single query returns the instance state unchanged. -/
theorem runQuery_state_id (s : BroadcastSvc.ServiceState) (q : BroadcastSvc.QueryOp) :
    (BroadcastSvc.runQuery s q).2 = s := by
  cases q <;> rfl

/-- C10: in the broadcast-based service the three query operations
`isVaultAvailable`, `getVaultData` and `getVaultSummary` are read-only: any
sequence of consecutive queries leaves the entire instance state — cached
snapshot, pending-request slot, listener flag and recorded player identity —
unchanged, and returns exactly the results each query would give on the
initial state. -/
theorem C10_queries_read_only (s : BroadcastSvc.ServiceState)
    (qs : List BroadcastSvc.QueryOp) :
    BroadcastSvc.runQueries s qs =
      (qs.map (fun q => (BroadcastSvc.runQuery s q).1), s) := by
  induction qs with
  | nil => rfl
  | cons q qs ih =>
    simp [BroadcastSvc.runQueries, runQuery_state_id, ih]

/-! ### C9 -/

/-- C9: initialization arms a recurring 20 second background refresh; the
start routine is idempotent (a second call leaves exactly one active timer),
the loop is cancelable, and with the single timer armed, advancing virtual
time by `N` intervals performs exactly `N` refreshes — not `2N` — invoking
the vault-changed callback exactly once per interval whose freshly read page
count differs from the previous one. -/
theorem C9_polling_single_timer :
    Poll.POLL_INTERVAL_MS = 20000 ∧
    (∀ s : Poll.PollComponent, s.activeTimers = 0 →
      (Poll.startPolling (Poll.startPolling s)).activeTimers = 1 ∧
      Poll.startPolling (Poll.startPolling s) = Poll.startPolling s) ∧
    (∀ s : Poll.PollComponent, ∀ reads : List Nat, s.activeTimers = 1 →
      (Poll.advanceIntervals s reads).refreshCount = s.refreshCount + reads.length ∧
      (Poll.advanceIntervals s reads).callbackCount =
        s.callbackCount + Poll.countChanges s.lastPageCount reads) ∧
    (∀ s : Poll.PollComponent, ∀ reads : List Nat,
      Poll.advanceIntervals (Poll.stopPolling s) reads = Poll.stopPolling s) := by
  refine ⟨rfl, ?_, ?_, ?_⟩
  · intro s h
    simp [Poll.startPolling, h]
  · intro s reads h
    induction reads generalizing s with
    | nil => simp [Poll.advanceIntervals, Poll.countChanges]
    | cons r rs ih =>
      have hstep : Poll.pollTick s r = Poll.fireRefresh s r := by
        simp [Poll.pollTick, h]
      have h1 : (Poll.fireRefresh s r).activeTimers = 1 := by
        simp [Poll.fireRefresh, h]
      have := ih (Poll.fireRefresh s r) h1
      simp only [Poll.advanceIntervals, List.foldl_cons, hstep] at *
      refine ⟨?_, ?_⟩
      · rw [this.1]
        simp [Poll.fireRefresh]
        omega
      · rw [this.2]
        simp [Poll.fireRefresh, Poll.countChanges]
        omega
  · intro s reads
    induction reads with
    | nil => rfl
    | cons r rs ih =>
      simpa [Poll.advanceIntervals, Poll.pollTick, Poll.stopPolling] using ih

/-- C9 (witness): with the poll started twice from a fresh component, three
intervals with page counts 4, 4, 6 perform exactly three refreshes and invoke
the callback exactly twice (the count changed on the first and third read). -/
theorem C9_witness :
    Poll.POLL_INTERVAL_MS = 20000 ∧
    (Poll.startPolling (Poll.startPolling ⟨0, 0, 0, 0⟩)).activeTimers = 1 ∧
    (Poll.advanceIntervals (Poll.startPolling (Poll.startPolling ⟨0, 0, 0, 0⟩))
        [4, 4, 6]).refreshCount = 3 ∧
    (Poll.advanceIntervals (Poll.startPolling (Poll.startPolling ⟨0, 0, 0, 0⟩))
        [4, 4, 6]).callbackCount = 2 := by
  refine ⟨C9_polling_single_timer.1, (C9_polling_single_timer.2.1 ⟨0, 0, 0, 0⟩ rfl).1, ?_, ?_⟩
  · have h := (C9_polling_single_timer.2.2.1
      (Poll.startPolling (Poll.startPolling ⟨0, 0, 0, 0⟩)) [4, 4, 6]
      (C9_polling_single_timer.2.1 ⟨0, 0, 0, 0⟩ rfl).1).1
    simpa [Poll.startPolling] using h
  · have h := (C9_polling_single_timer.2.2.1
      (Poll.startPolling (Poll.startPolling ⟨0, 0, 0, 0⟩)) [4, 4, 6]
      (C9_polling_single_timer.2.1 ⟨0, 0, 0, 0⟩ rfl).1).2
    simpa [Poll.startPolling, Poll.countChanges] using h

/-! ### C4 -/

/-- Every event dispatch preserves the single-resolution invariant of an
awaited round. -/
theorem stepEvent_inv (s : BroadcastSvc.WaitState) (e : BroadcastSvc.WaitEvent)
    (h : BroadcastSvc.WaitInv s) : BroadcastSvc.WaitInv (BroadcastSvc.stepEvent s e) := by
  obtain ⟨ht, hp, hc⟩ := h
  cases e with
  | responseFullVault config rid now =>
    cases config with
    | none => exact ⟨ht, hp, hc⟩
    | some cfg =>
      by_cases hpend : s.pendingRequest = true
      · simp [BroadcastSvc.stepEvent, hpend, BroadcastSvc.resolveOnce]
        by_cases hm : BroadcastSvc.requesterMatches s.playerId rid = true
        · simp [hm, BroadcastSvc.WaitInv, hp hpend]
        · simp [Bool.not_eq_true] at hm
          simp [hm, BroadcastSvc.WaitInv, ht, hpend, hp hpend]
      · simp [Bool.not_eq_true] at hpend
        simp [BroadcastSvc.stepEvent, hpend, BroadcastSvc.WaitInv, ht, hc]
  | visiblePages config now =>
    cases config with
    | none => exact ⟨ht, hp, hc⟩
    | some cfg =>
      by_cases hpend : s.pendingRequest = true
      · simp [BroadcastSvc.stepEvent, hpend, BroadcastSvc.resolveOnce,
          BroadcastSvc.WaitInv, hp hpend]
      · simp [Bool.not_eq_true] at hpend
        simp [BroadcastSvc.stepEvent, hpend, BroadcastSvc.WaitInv, ht, hc]
  | timeoutFired =>
    by_cases htim : s.timerActive = true
    · have hpend : s.pendingRequest = true := by rw [← ht, htim]
      simp [BroadcastSvc.stepEvent, htim, BroadcastSvc.WaitInv, hp hpend]
    · simp [Bool.not_eq_true] at htim
      have hpend : s.pendingRequest = false := by rw [← ht, htim]
      simp [BroadcastSvc.stepEvent, htim, BroadcastSvc.WaitInv, ht, hpend, hc]

/-- Event sequences preserve the single-resolution invariant. -/
theorem runEvents_inv (s : BroadcastSvc.WaitState) (evs : List BroadcastSvc.WaitEvent)
    (h : BroadcastSvc.WaitInv s) : BroadcastSvc.WaitInv (BroadcastSvc.runEvents s evs) := by
  induction evs generalizing s with
  | nil => exact h
  | cons e es ih => exact ih _ (stepEvent_inv s e h)

/-- C4: in an awaited refresh round of the broadcast-based service the
pending wait is resolved at most once: (1) from a fresh round, any sequence
of replies and timeout firings resolves the awaited promise at most once;
(2) once the slot is clear and the timeout disarmed (as after the bounded
wait has timed out), a late reply on either channel resolves nothing and the
handler still returns normally; (3, 4) a matching reply on either channel
while the wait is pending resolves it exactly once, clears the slot and
disarms the timeout. -/
theorem C4_pending_wait_resolved_at_most_once :
    (∀ (s : BroadcastSvc.WaitState) (evs : List BroadcastSvc.WaitEvent),
      s.pendingRequest = true → s.timerActive = true → s.resolveCount = 0 →
      (BroadcastSvc.runEvents s evs).resolveCount ≤ 1) ∧
    (∀ (s : BroadcastSvc.WaitState) (e : BroadcastSvc.WaitEvent),
      s.pendingRequest = false → s.timerActive = false →
      (BroadcastSvc.stepEvent s e).resolveCount = s.resolveCount ∧
      (BroadcastSvc.stepEvent s e).pendingRequest = false) ∧
    (∀ (s : BroadcastSvc.WaitState) (cfg : RawConfig) (rid : Option String) (now : Nat),
      s.pendingRequest = true →
      BroadcastSvc.requesterMatches s.playerId rid = true →
      (BroadcastSvc.stepEvent s (.responseFullVault (some cfg) rid now)).resolveCount =
        s.resolveCount + 1 ∧
      (BroadcastSvc.stepEvent s (.responseFullVault (some cfg) rid now)).pendingRequest = false ∧
      (BroadcastSvc.stepEvent s (.responseFullVault (some cfg) rid now)).timerActive = false) ∧
    (∀ (s : BroadcastSvc.WaitState) (cfg : RawConfig) (now : Nat),
      s.pendingRequest = true →
      (BroadcastSvc.stepEvent s (.visiblePages (some cfg) now)).resolveCount =
        s.resolveCount + 1 ∧
      (BroadcastSvc.stepEvent s (.visiblePages (some cfg) now)).pendingRequest = false ∧
      (BroadcastSvc.stepEvent s (.visiblePages (some cfg) now)).timerActive = false) := by
  refine ⟨?_, ?_, ?_, ?_⟩
  · intro s evs hpend htim hcnt
    exact (runEvents_inv s evs ⟨htim.trans hpend.symm, fun _ => hcnt, by omega⟩).2.2
  · intro s e hpend htim
    cases e with
    | responseFullVault config rid now =>
      cases config with
      | none => exact ⟨rfl, hpend⟩
      | some cfg => simp [BroadcastSvc.stepEvent, hpend]
    | visiblePages config now =>
      cases config with
      | none => exact ⟨rfl, hpend⟩
      | some cfg => simp [BroadcastSvc.stepEvent, hpend]
    | timeoutFired => simp [BroadcastSvc.stepEvent, htim, hpend]
  · intro s cfg rid now hpend hm
    simp [BroadcastSvc.stepEvent, hpend, hm, BroadcastSvc.resolveOnce]
  · intro s cfg now hpend
    simp [BroadcastSvc.stepEvent, hpend, BroadcastSvc.resolveOnce]

/-- C4 (witness): from a fresh awaited round, a visible-pages reply followed
by a duplicate full-vault reply and a stray timeout firing resolves the wait
exactly once; a late reply into a timed-out round resolves nothing; a
matching full-vault reply into a pending round resolves exactly once. -/
theorem C4_witness :
    (BroadcastSvc.runEvents ⟨true, true, 0, some "me", none⟩
        [.visiblePages (some { categories := some [] }) 1,
          .responseFullVault (some { categories := some [] }) none 2,
          .timeoutFired]).resolveCount ≤ 1 ∧
    (BroadcastSvc.stepEvent ⟨false, false, 1, some "me", none⟩
        (.responseFullVault (some { categories := some [] }) none 9)).resolveCount = 1 ∧
    (BroadcastSvc.stepEvent ⟨true, true, 0, some "me", none⟩
        (.responseFullVault (some { categories := some [] }) (some "me") 9)).resolveCount = 1 := by
  refine ⟨C4_pending_wait_resolved_at_most_once.1 _ _ rfl rfl rfl, ?_, ?_⟩
  · exact (C4_pending_wait_resolved_at_most_once.2.1 _
      (.responseFullVault (some { categories := some [] }) none 9) rfl rfl).1
  · have h := (C4_pending_wait_resolved_at_most_once.2.2.1
      ⟨true, true, 0, some "me", none⟩ { categories := some [] } (some "me") 9
      rfl (by simp [BroadcastSvc.requesterMatches])).1
    simpa using h

/-! ### C3 -/

/-- A string of length zero is the empty string. -/
theorem str_eq_empty_of_length (a : String) (h : a.length = 0) : a = "" := by
  cases a with
  | mk data =>
    simp [String.length] at h
    simp [h]

/-- Appending to a non-empty string stays non-empty. -/
theorem str_append_ne_empty_left (a b : String) (h : a ≠ "") : a ++ b ≠ "" := by
  intro hc
  apply h
  have hl := congrArg String.length hc
  simp [String.length_append] at hl
  exact str_eq_empty_of_length a (by omega)

/-- A defaulted name is never the empty string when the default is not. -/
theorem strOr_ne_empty (v : Option String) (d : String) (h : d ≠ "") :
    strOr v d ≠ "" := by
  cases v with
  | none => simpa [strOr]
  | some s =>
    simp only [strOr]
    by_cases hs : s = "" <;> simp [hs, h]

/-- A fully-qualified category name is never the empty string. -/
theorem categoryPathName_ne_empty (pp : String) (n : Option String) :
    categoryPathName pp n ≠ "" := by
  unfold categoryPathName
  by_cases hpp : pp = ""
  · simpa [hpp] using strOr_ne_empty n "Uncategorized" (by decide)
  · simp only [hpp, if_neg, if_false]
    exact str_append_ne_empty_left _ _ (str_append_ne_empty_left _ _ hpp)

/-- The name list returned by the addressing function is never empty. -/
theorem namesTo_ns_ne_nil (cats : List RawCategory) (addr : List Nat)
    (ns : List (Option String)) (c : RawCategory)
    (h : namesTo cats addr = some (ns, c)) : ns ≠ [] := by
  match addr with
  | [] => simp [namesTo] at h
  | [i] =>
    simp only [namesTo, Option.map_eq_some'] at h
    obtain ⟨c0, _, heq⟩ := h
    cases heq
    simp
  | i :: j :: rest =>
    simp only [namesTo, Option.bind_eq_some, Option.map_eq_some'] at h
    obtain ⟨c0, _, r, _, heq⟩ := h
    cases heq
    simp

/-- Peeling one ancestor off a relative path. -/
theorem pathFrom_cons (pp : String) (n : Option String)
    (ns : List (Option String)) (h : ns ≠ []) :
    pathFrom pp (n :: ns) = pathFrom (categoryPathName pp n) ns := by
  obtain ⟨m, ms, rfl⟩ : ∃ m ms, ns = m :: ms := by
    cases ns with
    | nil => simp at h
    | cons m ms => exact ⟨m, ms, rfl⟩
  by_cases hpp : pp = ""
  · simp [pathFrom, categoryPathName, hpp,
      strOr_ne_empty n "Uncategorized" (by decide), joinNames]
  · have hne : pp ++ (" > " ++ strOr n "Uncategorized") ≠ "" := by
      rw [← String.append_assoc]
      exact str_append_ne_empty_left _ _ (str_append_ne_empty_left _ _ hpp)
    simp [pathFrom, categoryPathName, hpp, joinNames, String.append_assoc, hne]

/-- Shifting an address past a leading sibling category. -/
theorem namesTo_cons_succ (c0 : RawCategory) (cats : List RawCategory)
    (i : Nat) (t : List Nat) :
    namesTo (c0 :: cats) ((i + 1) :: t) = namesTo cats (i :: t) := by
  cases t with
  | nil => simp [namesTo]
  | cons j rest => simp [namesTo]

/-- Completeness of the flattened category paths: every page the `part_005`
extraction emits under a parent path comes from a category addressable in the
config, and its category string is exactly the parent path extended by the
joined (defaulted) names of all its ancestors. -/
theorem extractPages_pages_complete (cats : List RawCategory) :
    ∀ (pp : String) (fp : FlatPage),
      fp ∈ (extractPages cats pp).2 →
      ∃ addr ns c, namesTo cats addr = some (ns, c) ∧
        ∃ q ∈ c.pages, fp = mkFlatPage q (pathFrom pp ns) := by
  induction cats using countPages.induct with
  | case1 =>
    intro pp fp h
    simp [extractPages] at h
  | case2 name pgs subs rest ih1 ih2 =>
    intro pp fp h
    simp only [extractPages, List.mem_append, List.mem_map] at h
    rcases h with ((⟨q, hq, rfl⟩ | hsub) | hrest)
    · refine ⟨[0], [name], .mk name pgs subs, by simp [namesTo, RawCategory.name], q,
        hq, ?_⟩
      have hpath : pathFrom pp [name] = categoryPathName pp name := by
        simp [pathFrom, joinNames, categoryPathName]
      rw [hpath]
    · obtain ⟨addr, ns, c, hn, q, hq, heq⟩ := ih1 (categoryPathName pp name) fp hsub
      obtain ⟨j, t, rfl⟩ : ∃ j t, addr = j :: t := by
        cases addr with
        | nil => simp [namesTo] at hn
        | cons j t => exact ⟨j, t, rfl⟩
      refine ⟨0 :: j :: t, name :: ns, c, ?_, q, hq, ?_⟩
      · simp [namesTo, RawCategory.categories, RawCategory.name, hn]
      · rw [pathFrom_cons pp name ns (namesTo_ns_ne_nil _ _ _ _ hn)]
        exact heq
    · obtain ⟨addr, ns, c, hn, q, hq, heq⟩ := ih2 pp fp hrest
      obtain ⟨i, t, rfl⟩ : ∃ i t, addr = i :: t := by
        cases addr with
        | nil => simp [namesTo] at hn
        | cons i t => exact ⟨i, t, rfl⟩
      exact ⟨(i + 1) :: t, ns, c,
        by rw [namesTo_cons_succ]; exact hn, q, hq, heq⟩

/-- C3: every page flattened by the `part_005` extraction carries as its
category field the fully-qualified path obtained by joining the defaulted
names of all its ancestor categories with the fixed delimiter; in particular
a category Region containing a sub-category City containing a page P yields
the path "Region > City" for P. -/
theorem C3_category_is_joined_ancestor_path :
    (∀ (cats : List RawCategory) (fp : FlatPage),
      fp ∈ (extractPages cats).2 →
      ∃ addr ns c, namesTo cats addr = some (ns, c) ∧
        ∃ q ∈ c.pages, fp = mkFlatPage q (joinNames ns)) ∧
    (extractPages [RawCategory.mk (some "Region") []
        [RawCategory.mk (some "City") [{ id := some "p", title := some "P" }] []]]).2 =
      [{ id := some "p", title := "P", category := "Region > City",
         url := none, icon := none }] := by
  constructor
  · intro cats fp h
    have hp := extractPages_pages_complete cats "" fp h
    simpa [pathFrom] using hp
  · simp [extractPages, categoryPathName, strOr, mkFlatPage, strOrNull]

/-- C3 (witness): the page P of the concrete Region / City config is
addressable, and its flattened record is built from the joined ancestor
names, yielding the category path "Region > City". -/
theorem C3_witness :
    ∃ addr ns c,
      namesTo [RawCategory.mk (some "Region") []
        [RawCategory.mk (some "City") [{ id := some "p", title := some "P" }] []]] addr =
        some (ns, c) ∧
      ∃ q ∈ c.pages,
        ({ id := some "p", title := "P", category := "Region > City",
           url := none, icon := none } : FlatPage) = mkFlatPage q (joinNames ns) :=
  C3_category_is_joined_ancestor_path.1 _ _
    (by simp [extractPages, categoryPathName, strOr, mkFlatPage, strOrNull])

/-! ### C6 -/

/-- Membership through sorted insertion. -/
theorem mem_insertSorted (a b : String) (l : List String) :
    a ∈ insertSorted b l ↔ a = b ∨ a ∈ l := by
  induction l with
  | nil => simp [insertSorted]
  | cons t ts ih =>
    simp only [insertSorted]
    by_cases hbt : b ≤ t
    · simp [hbt]
    · simp [hbt, ih]
      tauto

/-- Sorted insertion preserves sortedness. -/
theorem insertSorted_sorted (b : String) (l : List String)
    (h : l.Sorted (· ≤ ·)) : (insertSorted b l).Sorted (· ≤ ·) := by
  induction l with
  | nil => simp [insertSorted]
  | cons t ts ih =>
    simp only [insertSorted]
    by_cases hbt : b ≤ t
    · rw [if_pos hbt]
      refine List.sorted_cons.mpr ⟨?_, h⟩
      intro x hx
      rcases List.mem_cons.mp hx with rfl | hx
      · exact hbt
      · exact hbt.trans ((List.sorted_cons.mp h).1 x hx)
    · simp only [if_neg hbt, List.sorted_cons]
      obtain ⟨hall, hts⟩ := List.sorted_cons.mp h
      refine ⟨?_, ih hts⟩
      intro x hx
      rcases (mem_insertSorted x b ts).mp hx with rfl | hx
      · exact le_of_not_le hbt
      · exact hall x hx

/-- The modelled `Array.prototype.sort()` produces a sorted key list. -/
theorem sortStrings_sorted (l : List String) :
    (sortStrings l).Sorted (· ≤ ·) := by
  induction l with
  | nil => simp [sortStrings]
  | cons s ss ih => exact insertSorted_sorted s (sortStrings ss) ih

/-- The modelled sort preserves membership. -/
theorem mem_sortStrings (a : String) (l : List String) :
    a ∈ sortStrings l ↔ a ∈ l := by
  induction l with
  | nil => simp [sortStrings]
  | cons s ss ih =>
    simp only [sortStrings, List.foldr_cons, List.mem_cons]
    rw [show List.foldr insertSorted [] ss = sortStrings ss from rfl] at *
    rw [mem_insertSorted, ih]

/-- The group-update step keeps every key unchanged. -/
theorem addToGroups_update_fst (p : FlatPage) (g : String × List FlatPage) :
    ((if g.1 == p.category then (g.1, g.2 ++ [p]) else g) : String × List FlatPage).1 = g.1 := by
  by_cases h : g.1 == p.category <;> simp [h]

/-- Finding a key commutes with the group-update map. -/
theorem find?_addToGroups_map (acc : List (String × List FlatPage))
    (p : FlatPage) (c : String) :
    List.find? (fun g => g.1 == c)
        (acc.map (fun g => if g.1 == p.category then (g.1, g.2 ++ [p]) else g)) =
      (List.find? (fun g => g.1 == c) acc).map
        (fun g => if g.1 == p.category then (g.1, g.2 ++ [p]) else g) := by
  induction acc with
  | nil => rfl
  | cons h hs ih =>
    simp only [List.map_cons, List.find?_cons]
    rw [addToGroups_update_fst]
    by_cases hc : h.1 == c
    · simp [hc]
    · simp only [hc, cond_false]
      exact ih

/-- Appending a page to the groups extends exactly its own category group. -/
theorem lookupGroup_addToGroups (acc : List (String × List FlatPage))
    (p : FlatPage) (c : String) :
    lookupGroup (addToGroups acc p) c =
      lookupGroup acc c ++ (if p.category == c then [p] else []) := by
  by_cases hany : acc.any (fun g => g.1 == p.category)
  · simp only [addToGroups, if_pos hany, lookupGroup, find?_addToGroups_map]
    cases hfind : List.find? (fun g => g.1 == c) acc with
    | none =>
      simp only [Option.map_none']
      rcases List.find?_eq_none.mp hfind with hnone
      by_cases hpc : p.category == c
      · obtain ⟨g, hg, hgp⟩ := List.any_eq_true.mp hany
        exfalso
        apply hnone g hg
        have h1 : g.1 = p.category := by simpa using hgp
        have h2 : p.category = c := by simpa using hpc
        simp [h1, h2]
      · simp [hpc]
    | some g =>
      have hg1 : g.1 = c := by simpa using List.find?_some hfind
      simp only [Option.map_some']
      by_cases hgp : g.1 == p.category
      · have : p.category == c := by
          have := beq_iff_eq.mp hgp
          simp [← this, hg1]
        simp [hgp, this]
      · have : ¬(p.category == c) := by
          intro hpc
          apply hgp
          have h2 : p.category = c := by simpa using hpc
          simp [hg1, h2]
        simp [hgp, this]
  · simp only [addToGroups, if_neg hany, lookupGroup, List.find?_append]
    cases hfind : List.find? (fun g => g.1 == c) acc with
    | none =>
      simp only [Option.none_orElse]
      by_cases hpc : p.category == c
      · simp [List.find?, hpc, beq_iff_eq.mp hpc]
      · simp [List.find?, hpc]
    | some g =>
      have hg1 : g.1 = c := by simpa using List.find?_some hfind
      have hpc : ¬(p.category == c) := by
        intro hpc
        apply hany
        refine List.any_eq_true.mpr ⟨g, List.mem_of_find?_eq_some hfind, ?_⟩
        have h2 : p.category = c := by simpa using hpc
        simp [hg1, h2]
      simp [Option.some_orElse, hpc]

/-- The group of a category collects exactly the pages of that category, in
their original order. -/
theorem lookupGroup_foldl (pages : List FlatPage)
    (acc : List (String × List FlatPage)) (c : String) :
    lookupGroup (pages.foldl addToGroups acc) c =
      lookupGroup acc c ++ pages.filter (fun p => p.category == c) := by
  induction pages generalizing acc with
  | nil => simp
  | cons p ps ih =>
    simp only [List.foldl_cons, List.filter_cons]
    rw [ih, lookupGroup_addToGroups]
    by_cases hpc : p.category == c
    · simp [hpc, List.append_assoc]
    · simp [hpc]

/-- Pages grouped by category, looked up by key, are the filter of the page
list by that category. -/
theorem lookupGroup_pagesByCategory (pages : List FlatPage) (c : String) :
    lookupGroup (pagesByCategory pages) c =
      pages.filter (fun p => p.category == c) := by
  have h := lookupGroup_foldl pages [] c
  simpa [pagesByCategory, lookupGroup] using h

/-- One grouping step adds exactly the new page category to the keys. -/
theorem mem_keys_addToGroups (acc : List (String × List FlatPage))
    (p : FlatPage) (c : String) :
    c ∈ (addToGroups acc p).map Prod.fst ↔
      c ∈ acc.map Prod.fst ∨ c = p.category := by
  by_cases hany : acc.any (fun g => g.1 == p.category)
  · obtain ⟨g, hg, hgp⟩ := List.any_eq_true.mp hany
    have hmem : p.category ∈ acc.map Prod.fst := by
      have h1 : g.1 = p.category := by simpa using hgp
      exact h1 ▸ List.mem_map_of_mem Prod.fst hg
    have hkeys : (addToGroups acc p).map Prod.fst = acc.map Prod.fst := by
      simp only [addToGroups, if_pos hany, List.map_map]
      exact List.map_congr_left (fun g _ => addToGroups_update_fst p g)
    rw [hkeys]
    constructor
    · exact Or.inl
    · rintro (h | rfl)
      · exact h
      · exact hmem
  · simp [addToGroups, if_neg hany]

/-- The grouping keys are exactly the categories occurring among the pages. -/
theorem mem_keys_foldl (pages : List FlatPage)
    (acc : List (String × List FlatPage)) (c : String) :
    c ∈ (pages.foldl addToGroups acc).map Prod.fst ↔
      c ∈ acc.map Prod.fst ∨ c ∈ pages.map FlatPage.category := by
  induction pages generalizing acc with
  | nil => simp
  | cons p ps ih =>
    simp only [List.foldl_cons, List.map_cons, List.mem_cons]
    rw [ih, mem_keys_addToGroups]
    tauto

/-- C6: for every available snapshot, `getVaultSummary` lists the category
groups in lexicographic order of the fully-qualified path, independent of
input order; the key set is exactly the categories of the pages; within each
group the pages appear in original flattening order (the filter of the page
list); each page line is the icon (or the default icon) followed by the
title; and on the concrete snapshot whose flattening visited Zeta before
Alpha, the rendered summary lists the Alpha block before the Zeta block. -/
theorem C6_getVaultSummary_sorted_grouping :
    (∀ pages : List FlatPage,
      (sortStrings ((pagesByCategory pages).map Prod.fst)).Sorted (· ≤ ·)) ∧
    (∀ (pages : List FlatPage) (c : String),
      lookupGroup (pagesByCategory pages) c =
        pages.filter (fun p => p.category == c)) ∧
    (∀ (pages : List FlatPage) (c : String),
      c ∈ sortStrings ((pagesByCategory pages).map Prod.fst) ↔
        c ∈ pages.map FlatPage.category) ∧
    (∀ vd : MetadataSvc.VaultData,
      MetadataSvc.getVaultSummary (some vd) =
        if vd.pages.length = 0 then ""
        else
          summaryHeader vd.pages.length vd.categories.length ++
            String.join ((sortStrings ((pagesByCategory vd.pages).map Prod.fst)).map
              (fun c => "\n**" ++ c ++ ":**\n" ++
                String.join ((vd.pages.filter (fun p => p.category == c)).map
                  (fun p => "- " ++ p.icon.getD "📄" ++ " " ++ p.title ++ "\n")))) ++
            summaryFooter) ∧
    (MetadataSvc.getVaultSummary (MetadataSvc.processVaultConfig none
        (some { categories := some [
          RawCategory.mk (some "Zeta") [{ id := some "a", title := some "A" }] [],
          RawCategory.mk (some "Alpha") [{ id := some "b", title := some "B" }] []] }) 0) =
      "\n\n## GM Vault Content\n\nThe user has a GM Vault with 2 pages organized in 2 categories.\n\nAvailable pages:\n\n**Alpha:**\n- 📄 B\n\n**Zeta:**\n- 📄 A\n\nNote: The user can reference these pages when asking questions. You can mention them if relevant to the conversation.\n") := by
  refine ⟨?_, lookupGroup_pagesByCategory, ?_, ?_, ?_⟩
  · intro pages
    exact sortStrings_sorted _
  · intro pages c
    rw [mem_sortStrings]
    have h := mem_keys_foldl pages [] c
    simpa [pagesByCategory] using h
  · intro vd
    by_cases h : vd.pages.length = 0
    · simp [MetadataSvc.getVaultSummary, h]
    · have hmap : List.map (renderCategoryBlock (pagesByCategory vd.pages))
          (sortStrings ((pagesByCategory vd.pages).map Prod.fst)) =
          List.map (fun c => "\n**" ++ c ++ ":**\n" ++
            String.join ((vd.pages.filter (fun p => p.category == c)).map
              (fun p => "- " ++ p.icon.getD "📄" ++ " " ++ p.title ++ "\n")))
            (sortStrings ((pagesByCategory vd.pages).map Prod.fst)) :=
        List.map_congr_left (fun c _ => by
          simp only [renderCategoryBlock, lookupGroup_pagesByCategory]
          rfl)
      simp only [MetadataSvc.getVaultSummary, if_neg h, renderSummary, hmap]
  · have h1 : MetadataSvc.processVaultConfig none
        (some { categories := some [
          RawCategory.mk (some "Zeta") [{ id := some "a", title := some "A" }] [],
          RawCategory.mk (some "Alpha") [{ id := some "b", title := some "B" }] []] }) 0 =
        some { categories := ["Zeta", "Alpha"],
               pages := [
                 { id := some "a", title := "A", category := "Zeta", url := none, icon := none },
                 { id := some "b", title := "B", category := "Alpha", url := none, icon := none }],
               lastUpdate := 0 } := by
      simp [MetadataSvc.processVaultConfig, extractPages, categoryPathName,
        strOr, mkFlatPage, strOrNull]
    have hZA : ¬(("Zeta" : String) ≤ "Alpha") := by
      rw [String.le_iff_toList_le]
      decide
    rw [h1]
    simp [MetadataSvc.getVaultSummary, renderSummary, pagesByCategory,
      addToGroups, lookupGroup, sortStrings, insertSorted, hZA,
      renderCategoryBlock, renderPageLine, summaryHeader, summaryFooter,
      String.join]
    rfl
